import Mathlib

set_option maxHeartbeats 1000000

/-!
Verification of the realtime audio pipeline of the English_Tutor client.

The development shallowly embeds the audio utility functions of
src/types.ts (base64 transport, PCM16 codec, linear-interpolation
resampler), the transcript accumulator of src/App.tsx
(handleTranscript), and the inbound message handler of
src/services/geminiLiveService.ts (handleMessage: transcription
routing, turn completion flush, playback scheduling, interruption).

Machine floats are modelled by exact rationals; 16-bit integer
conversion is modelled with explicit truncation and wrap-around as the
JS Int16Array assignment performs it.
-/

namespace EnglishTutor

/-- ASCII code of the base64 alphabet character for a 6-bit value, as
computed by the browser btoa built-in that arrayBufferToBase64
(src/types.ts) delegates to: 0-25 map to A-Z, 26-51 to a-z, 52-61 to
digits, 62 to plus, 63 to slash. -/
def sextetToAscii (n : ℕ) : ℕ :=
  if n < 26 then n + 65
  else if n < 52 then n + 71
  else if n < 62 then n - 4
  else if n = 62 then 43
  else 47

/-- Inverse alphabet lookup performed by the browser atob built-in used
by base64ToUint8Array (src/types.ts). -/
def asciiToSextet (c : ℕ) : ℕ :=
  if c = 43 then 62
  else if c = 47 then 63
  else if c < 65 then c + 4
  else if c < 97 then c - 65
  else c - 71

/-- The browser btoa on a byte sequence: groups of three bytes become
four base64 character codes; a trailing group of one or two bytes is
padded with the code 61 (the equals sign). Composed with the
char-code loop of arrayBufferToBase64 (src/types.ts) this is the whole
encoder, bytes to base64 character codes. -/
def btoa : List ℕ → List ℕ
  | [] => []
  | [a] => [sextetToAscii (a / 4), sextetToAscii (a % 4 * 16), 61, 61]
  | [a, b] => [sextetToAscii (a / 4), sextetToAscii (a % 4 * 16 + b / 16),
      sextetToAscii (b % 16 * 4), 61]
  | a :: b :: c :: rest =>
      sextetToAscii (a / 4) :: sextetToAscii (a % 4 * 16 + b / 16) ::
        sextetToAscii (b % 16 * 4 + c / 64) :: sextetToAscii (c % 64) :: btoa rest

/-- The browser atob on base64 character codes, producing the byte
sequence; composed with the charCodeAt loop of base64ToUint8Array
(src/types.ts) this is the whole decoder. -/
def atob : List ℕ → List ℕ
  | w :: x :: y :: z :: rest =>
      if z = 61 then
        if y = 61 then [asciiToSextet w * 4 + asciiToSextet x / 16]
        else [asciiToSextet w * 4 + asciiToSextet x / 16,
              asciiToSextet x % 16 * 16 + asciiToSextet y / 4]
      else
        (asciiToSextet w * 4 + asciiToSextet x / 16) ::
          (asciiToSextet x % 16 * 16 + asciiToSextet y / 4) ::
          ((asciiToSextet y % 4 * 64 + asciiToSextet z) :: atob rest)
  | _ => []

theorem asciiToSextet_sextetToAscii : ∀ n, n < 64 → asciiToSextet (sextetToAscii n) = n := by
  decide

theorem sextetToAscii_ne_pad : ∀ n, n < 64 → sextetToAscii n ≠ 61 := by
  decide

theorem atob_btoa : ∀ l : List ℕ, (∀ b ∈ l, b < 256) → atob (btoa l) = l
  | [], _ => rfl
  | [a], h => by
      have ha : a < 256 := h a (by simp)
      simp only [btoa, atob, if_pos rfl,
        asciiToSextet_sextetToAscii _ (by omega : a / 4 < 64),
        asciiToSextet_sextetToAscii _ (by omega : a % 4 * 16 < 64)]
      simp only [if_true, List.cons.injEq, and_true]
      omega
  | [a, b], h => by
      have ha : a < 256 := h a (by simp)
      have hb : b < 256 := h b (by simp)
      have hy : sextetToAscii (b % 16 * 4) ≠ 61 :=
        sextetToAscii_ne_pad _ (by omega)
      simp only [btoa, atob, if_pos rfl, if_neg hy,
        asciiToSextet_sextetToAscii _ (by omega : a / 4 < 64),
        asciiToSextet_sextetToAscii _ (by omega : a % 4 * 16 + b / 16 < 64),
        asciiToSextet_sextetToAscii _ (by omega : b % 16 * 4 < 64)]
      simp only [if_true, List.cons.injEq, and_true]
      omega
  | a :: b :: c :: rest, h => by
      have ha : a < 256 := h a (by simp)
      have hb : b < 256 := h b (by simp)
      have hc : c < 256 := h c (by simp)
      have hz : sextetToAscii (c % 64) ≠ 61 :=
        sextetToAscii_ne_pad _ (by omega)
      have ih := atob_btoa rest (fun x hx => h x (by simp [hx]))
      simp only [btoa, atob, if_neg hz,
        asciiToSextet_sextetToAscii _ (by omega : a / 4 < 64),
        asciiToSextet_sextetToAscii _ (by omega : a % 4 * 16 + b / 16 < 64),
        asciiToSextet_sextetToAscii _ (by omega : b % 16 * 4 + c / 64 < 64),
        asciiToSextet_sextetToAscii _ (by omega : c % 64 < 64)]
      rw [ih]
      simp only [List.cons.injEq, and_true]
      omega

/-- JS ToInteger: truncation of a number toward zero, applied by an
Int16Array element assignment before wrap-around. -/
def jsTrunc (x : ℚ) : ℤ :=
  if x < 0 then ⌈x⌉ else ⌊x⌋

/-- Wrap an integer into the signed 16-bit range, as an Int16Array
element assignment does after truncation. -/
def wrapInt16 (t : ℤ) : ℤ :=
  if 32768 ≤ t % 65536 then t % 65536 - 65536 else t % 65536

/-- One sample of the Float32-to-Int16 loop of createPcmBlob
(src/types.ts): clamp to the unit interval, then scale negative values
by 0x8000 and non-negative ones by 0x7FFF, then store into the
Int16Array. -/
def createPcmSample (x : ℚ) : ℤ :=
  wrapInt16 (jsTrunc (if max (-1) (min 1 x) < 0 then max (-1) (min 1 x) * 32768
    else max (-1) (min 1 x) * 32767))

/-- Little-endian bytes of one Int16Array element as they appear in the
underlying buffer read by arrayBufferToBase64 (src/types.ts). -/
def int16ToBytesLE (v : ℤ) : List ℕ :=
  [(v % 65536).toNat % 256, (v % 65536).toNat / 256]

/-- The raw PCM16 little-endian byte stream of createPcmBlob
(src/types.ts) before the base64 wrapping. -/
def createPcmBlobBytes (data : List ℚ) : List ℕ :=
  (data.map createPcmSample).flatMap int16ToBytesLE

/-- The base64 payload (character codes) of the Blob returned by
createPcmBlob (src/types.ts); its mimeType is audio/pcm;rate=16000. -/
def createPcmBlobData (data : List ℚ) : List ℕ :=
  btoa (createPcmBlobBytes data)

/-- base64ToUint8Array (src/types.ts): atob plus the charCodeAt loop,
giving back the byte sequence. -/
def base64ToUint8Array (b64 : List ℕ) : List ℕ :=
  atob b64

/-- Reinterpretation of a byte buffer as little-endian signed 16-bit
integers, as the Int16Array view in decodeAudioData (src/types.ts)
performs it. A trailing odd byte cannot occur for buffers produced by
the encoder; the JS constructor would throw on one. -/
def bytesToInt16LE : List ℕ → List ℤ
  | b0 :: b1 :: rest =>
      (if 32768 ≤ b0 + 256 * b1 then ((b0 + 256 * b1 : ℕ) : ℤ) - 65536
       else ((b0 + 256 * b1 : ℕ) : ℤ)) :: bytesToInt16LE rest
  | _ => []

/-- The sample values written into the AudioBuffer by decodeAudioData
(src/types.ts) in the single-channel form used by handleMessage: each
little-endian int16 divided by 32768. -/
def decodeAudioDataSamples (bytes : List ℕ) : List ℚ :=
  (bytesToInt16LE bytes).map (fun v : ℤ => (v : ℚ) / 32768)

/-- The full codec round trip of the claim: encode with createPcmBlob,
transport the base64 payload, decode with base64ToUint8Array and
decodeAudioData. -/
def codecRoundTrip (data : List ℚ) : List ℚ :=
  decodeAudioDataSamples (base64ToUint8Array (createPcmBlobData data))

theorem wrapInt16_eq_self (t : ℤ) (h1 : -32768 ≤ t) (h2 : t < 32768) : wrapInt16 t = t := by
  unfold wrapInt16
  split_ifs <;> omega

theorem clamp_eq_self (x : ℚ) (h1 : -1 ≤ x) (h2 : x ≤ 1) : max (-1) (min 1 x) = x := by
  rw [min_eq_right h2, max_eq_right h1]

theorem createPcmSample_range (x : ℚ) :
    -32768 ≤ createPcmSample x ∧ createPcmSample x < 32768 := by
  unfold createPcmSample jsTrunc
  have hs1 : -1 ≤ max (-1) (min 1 x) := le_max_left _ _
  have hs2 : max (-1) (min 1 x) ≤ 1 := max_le (by norm_num) (min_le_left _ _)
  set s := max (-1) (min 1 x) with hs
  rcases lt_or_le s 0 with hneg | hneg
  · rw [if_pos hneg]
    have hy0 : s * 32768 < 0 := by nlinarith
    rw [if_pos hy0]
    have hy1 : (-32768 : ℚ) ≤ s * 32768 := by nlinarith
    have c1 : (-32768 : ℤ) ≤ ⌈s * 32768⌉ := by
      have hc := Int.le_ceil (s * 32768)
      exact_mod_cast hy1.trans hc
    have c2 : ⌈s * 32768⌉ ≤ 0 := Int.ceil_le.mpr (by exact_mod_cast hy0.le)
    rw [wrapInt16_eq_self _ c1 (by omega)]
    omega
  · rw [if_neg (not_lt.mpr hneg)]
    have hy1 : (0 : ℚ) ≤ s * 32767 := by nlinarith
    have hy2 : s * 32767 ≤ 32767 := by nlinarith
    rw [if_neg (not_lt.mpr hy1)]
    have c1 : (0 : ℤ) ≤ ⌊s * 32767⌋ := Int.floor_nonneg.mpr hy1
    have c2 : ⌊s * 32767⌋ < 32768 := Int.floor_lt.mpr (by exact_mod_cast hy2.trans_lt (by norm_num))
    rw [wrapInt16_eq_self _ (by omega) c2]
    omega

theorem createPcmSample_eq (x : ℚ) (h1 : -1 ≤ x) (h2 : x ≤ 1) :
    createPcmSample x = if x < 0 then ⌈x * 32768⌉ else ⌊x * 32767⌋ := by
  unfold createPcmSample jsTrunc
  rw [clamp_eq_self x h1 h2]
  rcases lt_or_le x 0 with hneg | hneg
  · rw [if_pos hneg, if_pos hneg]
    have hy0 : x * 32768 < 0 := by nlinarith
    rw [if_pos hy0]
    have hy1 : (-32768 : ℚ) ≤ x * 32768 := by nlinarith
    have c1 : (-32768 : ℤ) ≤ ⌈x * 32768⌉ := by
      have hc := Int.le_ceil (x * 32768)
      exact_mod_cast hy1.trans hc
    have c2 : ⌈x * 32768⌉ ≤ 0 := Int.ceil_le.mpr (by exact_mod_cast hy0.le)
    exact wrapInt16_eq_self _ c1 (by omega)
  · rw [if_neg (not_lt.mpr hneg), if_neg (not_lt.mpr hneg)]
    have hy1 : (0 : ℚ) ≤ x * 32767 := by nlinarith
    have hy2 : x * 32767 ≤ 32767 := by nlinarith
    rw [if_neg (not_lt.mpr hy1)]
    have c1 : (0 : ℤ) ≤ ⌊x * 32767⌋ := Int.floor_nonneg.mpr hy1
    have c2 : ⌊x * 32767⌋ < 32768 := Int.floor_lt.mpr (by exact_mod_cast hy2.trans_lt (by norm_num))
    exact wrapInt16_eq_self _ (by omega) c2

theorem bytesToInt16LE_flatMap (l : List ℤ) (h : ∀ v ∈ l, -32768 ≤ v ∧ v < 32768) :
    bytesToInt16LE (l.flatMap int16ToBytesLE) = l := by
  induction l with
  | nil => rfl
  | cons v tl ih =>
      have hv := h v (by simp)
      have htl := ih (fun w hw => h w (by simp [hw]))
      have hexp : (v :: tl).flatMap int16ToBytesLE =
          (v % 65536).toNat % 256 :: ((v % 65536).toNat / 256 :: tl.flatMap int16ToBytesLE) := by
        rw [List.flatMap_cons]
        rfl
      rw [hexp]
      simp only [bytesToInt16LE]
      rw [htl]
      congr 1
      split_ifs with hif <;> omega

theorem createPcmBlobBytes_lt (data : List ℚ) : ∀ b ∈ createPcmBlobBytes data, b < 256 := by
  intro b hb
  unfold createPcmBlobBytes at hb
  rw [List.mem_flatMap] at hb
  obtain ⟨v, _, hb⟩ := hb
  unfold int16ToBytesLE at hb
  simp only [List.mem_cons, List.not_mem_nil, or_false] at hb
  rcases hb with hb | hb <;> omega

theorem codecRoundTrip_map (data : List ℚ) :
    codecRoundTrip data = data.map (fun x => (createPcmSample x : ℚ) / 32768) := by
  unfold codecRoundTrip base64ToUint8Array createPcmBlobData decodeAudioDataSamples
  rw [atob_btoa _ (createPcmBlobBytes_lt data)]
  unfold createPcmBlobBytes
  rw [bytesToInt16LE_flatMap (data.map createPcmSample) (by
    intro v hv
    rw [List.mem_map] at hv
    obtain ⟨x, _, hx⟩ := hv
    rw [← hx]
    exact createPcmSample_range x)]
  rw [List.map_map]
  rfl

theorem createPcmSample_quantization (x : ℚ) (h1 : -1 ≤ x) (h2 : x ≤ 1) :
    |(createPcmSample x : ℚ) / 32768 - x| ≤ 2 / 32768 := by
  rw [createPcmSample_eq x h1 h2]
  split_ifs with hneg
  · have hc1 : x * 32768 ≤ (⌈x * 32768⌉ : ℚ) := Int.le_ceil _
    have hc2 : (⌈x * 32768⌉ : ℚ) < x * 32768 + 1 := Int.ceil_lt_add_one _
    rw [abs_le]
    constructor <;> linarith
  · have hf1 : (⌊x * 32767⌋ : ℚ) ≤ x * 32767 := Int.floor_le _
    have hf2 : x * 32767 - 1 < (⌊x * 32767⌋ : ℚ) := Int.sub_one_lt_floor _
    push_neg at hneg
    rw [abs_le]
    constructor <;> linarith

/-- C2, counterexample: the buffer [9/10] lies in [-1, 1], yet the
createPcmBlob / decodeAudioData round trip moves the sample by
3/81920 > 1/32768, because non-negative samples are encoded with scale
32767 but decoded with scale 32768. The claimed bound of one
quantization step (1/32768) is therefore false. -/
theorem codec_round_trip_cex :
    (∀ x ∈ [(9 : ℚ) / 10], -1 ≤ x ∧ x ≤ 1) ∧
    ¬ |(codecRoundTrip [(9 : ℚ) / 10]).getD 0 0 - ([(9 : ℚ) / 10].getD 0 0)| ≤ 1 / 32768 := by
  constructor
  · intro x hx
    rw [List.mem_singleton] at hx
    rw [hx]
    constructor <;> norm_num
  · rw [codecRoundTrip_map]
    have h9 : createPcmSample ((9 : ℚ) / 10) = 29490 := by
      rw [createPcmSample_eq _ (by norm_num) (by norm_num), if_neg (by norm_num)]
      have he : (9 : ℚ) / 10 * 32767 = 294903 / 10 := by norm_num
      rw [he, Int.floor_eq_iff]
      constructor <;> norm_num
    simp only [List.map_cons, List.map_nil, List.getD_cons_zero, h9]
    have hd : ((29490 : ℤ) : ℚ) / 32768 - 9 / 10 = -(3 / 81920) := by
      push_cast
      norm_num
    rw [hd, abs_neg, abs_of_nonneg (by norm_num : (0 : ℚ) ≤ 3 / 81920)]
    norm_num

/-- C2 (amended): encoding a float buffer with values in [-1, 1] via
createPcmBlob and decoding the payload with base64ToUint8Array and
decodeAudioData yields a buffer of the same length in which every
sample differs from the corresponding input by at most 2/32768 (for
negative samples the error stays below 1/32768; for non-negative ones
the asymmetric 32767-encode / 32768-decode scaling can push it up to,
but not past, 2/32768). -/
theorem codec_round_trip (data : List ℚ) (h : ∀ x ∈ data, -1 ≤ x ∧ x ≤ 1) :
    (codecRoundTrip data).length = data.length ∧
    ∀ i, i < data.length →
      |(codecRoundTrip data).getD i 0 - data.getD i 0| ≤ 2 / 32768 := by
  rw [codecRoundTrip_map]
  refine ⟨List.length_map _ _, ?_⟩
  intro i hi
  rw [List.getD_eq_getElem _ _ (by simpa using hi), List.getD_eq_getElem _ _ hi,
    List.getElem_map]
  obtain ⟨hx1, hx2⟩ := h data[i] (List.getElem_mem hi)
  exact createPcmSample_quantization data[i] hx1 hx2

/-- Witness for codec_round_trip at the concrete buffer [1/2]. -/
theorem codec_round_trip_witness :
    (codecRoundTrip [(1 : ℚ) / 2]).length = [(1 : ℚ) / 2].length ∧
    |(codecRoundTrip [(1 : ℚ) / 2]).getD 0 0 - [(1 : ℚ) / 2].getD 0 0| ≤ 2 / 32768 := by
  have h := codec_round_trip [(1 : ℚ) / 2] (by
    intro x hx
    rw [List.mem_singleton] at hx
    rw [hx]
    constructor <;> norm_num)
  exact ⟨h.1, h.2 0 (by norm_num)⟩

/-- Floor source index of iteration i of the resampling loop in
downsampleTo16k (src/types.ts): floor of i * ratio with
ratio = inputSampleRate / 16000. -/
def dsIndexFloor (i : ℕ) (inputSampleRate : ℚ) : ℤ :=
  ⌊(i : ℚ) * (inputSampleRate / 16000)⌋

/-- Ceil source index of iteration i of the resampling loop in
downsampleTo16k (src/types.ts), clamped by the source to
buffer.length - 1. -/
def dsIndexCeil (len : ℕ) (i : ℕ) (inputSampleRate : ℚ) : ℤ :=
  min ⌈(i : ℚ) * (inputSampleRate / 16000)⌉ ((len : ℤ) - 1)

/-- One iteration of the resampling loop of downsampleTo16k
(src/types.ts): val1 + (val2 - val1) * decimal with
decimal = index - floor(index). -/
def dsSample (buffer : List ℚ) (inputSampleRate : ℚ) (i : ℕ) : ℚ :=
  buffer.getD (dsIndexFloor i inputSampleRate).toNat 0 +
    (buffer.getD (dsIndexCeil buffer.length i inputSampleRate).toNat 0 -
      buffer.getD (dsIndexFloor i inputSampleRate).toNat 0) *
      ((i : ℚ) * (inputSampleRate / 16000) - ⌊(i : ℚ) * (inputSampleRate / 16000)⌋)

/-- downsampleTo16k (src/types.ts): identity at 16000 Hz, otherwise a
new buffer of length round(buffer.length / ratio) filled by the linear
interpolation loop. JS Math.round agrees with Mathlib round
(floor of x + 1/2). -/
def downsampleTo16k (buffer : List ℚ) (inputSampleRate : ℚ) : List ℚ :=
  if inputSampleRate = 16000 then buffer
  else
    (List.range (round ((buffer.length : ℚ) / (inputSampleRate / 16000))).toNat).map
      (dsSample buffer inputSampleRate)

theorem downsampleTo16k_length (buffer : List ℚ) (r : ℚ) (h16 : r ≠ 16000) :
    (downsampleTo16k buffer r).length =
      (round ((buffer.length : ℚ) / (r / 16000))).toNat := by
  unfold downsampleTo16k
  rw [if_neg h16, List.length_map, List.length_range]

/-- C3: for a positive input rate different from 16000, downsampleTo16k
returns a buffer of length round(len * 16000 / r), and the empty buffer
maps to the empty buffer. -/
theorem resample_length_law (buffer : List ℚ) (r : ℚ) (h0 : 0 < r) (h16 : r ≠ 16000) :
    (downsampleTo16k buffer r).length = (round ((buffer.length : ℚ) * 16000 / r)).toNat ∧
    (buffer = [] → downsampleTo16k buffer r = []) := by
  constructor
  · rw [downsampleTo16k_length buffer r h16, div_div_eq_mul_div]
  · intro hb
    subst hb
    unfold downsampleTo16k
    rw [if_neg h16]
    simp

/-- Witness for resample_length_law at the buffer [1, 2] and rate
32000, and the empty buffer at rate 32000. -/
theorem resample_length_law_witness :
    (downsampleTo16k [(1 : ℚ), 2] 32000).length =
      (round (([(1 : ℚ), 2].length : ℚ) * 16000 / 32000)).toNat ∧
    downsampleTo16k ([] : List ℚ) 32000 = [] := by
  exact ⟨(resample_length_law [(1 : ℚ), 2] 32000 (by norm_num) (by norm_num)).1,
    (resample_length_law ([] : List ℚ) 32000 (by norm_num) (by norm_num)).2 rfl⟩

/-- C10: for a positive rate different from 16000, every source read of
the resampling loop is in bounds: both the floor index and the clamped
ceil index lie in [0, len - 1] for every output position, and the empty
buffer yields a loop of zero iterations. -/
theorem resample_index_safety (buffer : List ℚ) (r : ℚ) (h0 : 0 < r) (h16 : r ≠ 16000) :
    (∀ i, i < (downsampleTo16k buffer r).length →
      0 ≤ dsIndexFloor i r ∧ dsIndexFloor i r ≤ (buffer.length : ℤ) - 1 ∧
      0 ≤ dsIndexCeil buffer.length i r ∧
      dsIndexCeil buffer.length i r ≤ (buffer.length : ℤ) - 1) ∧
    (buffer = [] → (downsampleTo16k buffer r).length = 0) := by
  have hq : 0 < r / 16000 := by positivity
  constructor
  · intro i hi
    rw [downsampleTo16k_length buffer r h16] at hi
    have hiZ : ((i : ℤ)) < round ((buffer.length : ℚ) / (r / 16000)) := Int.lt_toNat.mp hi
    rw [round_eq] at hiZ
    have h1 : ((i : ℤ)) + 1 ≤ ⌊(buffer.length : ℚ) / (r / 16000) + 1 / 2⌋ := by omega
    have h2 : ((i : ℚ)) + 1 ≤ (buffer.length : ℚ) / (r / 16000) + 1 / 2 := by
      have := Int.le_floor.mp h1
      exact_mod_cast this
    have hql : ((buffer.length : ℚ) / (r / 16000)) * (r / 16000) = (buffer.length : ℚ) :=
      div_mul_cancel₀ _ (ne_of_gt hq)
    have hkey : (i : ℚ) * (r / 16000) < (buffer.length : ℚ) := by nlinarith
    have hf0 : 0 ≤ dsIndexFloor i r := Int.floor_nonneg.mpr (by positivity)
    have hfU : dsIndexFloor i r ≤ (buffer.length : ℤ) - 1 := by
      have hlt : dsIndexFloor i r < (buffer.length : ℤ) := Int.floor_lt.mpr (by exact_mod_cast hkey)
      omega
    have hL0 : 0 < buffer.length := by
      have h0Q : (0 : ℚ) < (buffer.length : ℚ) := lt_of_le_of_lt (by positivity) hkey
      exact_mod_cast h0Q
    have hc0 : 0 ≤ dsIndexCeil buffer.length i r :=
      le_min (Int.ceil_nonneg (by positivity)) (by omega)
    have hcU : dsIndexCeil buffer.length i r ≤ (buffer.length : ℤ) - 1 := min_le_right _ _
    exact ⟨hf0, hfU, hc0, hcU⟩
  · intro hb
    subst hb
    rw [downsampleTo16k_length _ _ h16]
    simp

/-- Witness for resample_index_safety at the buffer [0, 1], rate 32000,
output index 0. -/
theorem resample_index_safety_witness :
    0 ≤ dsIndexFloor 0 32000 ∧ dsIndexFloor 0 32000 ≤ ([(0 : ℚ), 1].length : ℤ) - 1 ∧
    0 ≤ dsIndexCeil [(0 : ℚ), 1].length 0 32000 ∧
    dsIndexCeil [(0 : ℚ), 1].length 0 32000 ≤ ([(0 : ℚ), 1].length : ℤ) - 1 := by
  refine (resample_index_safety [(0 : ℚ), 1] 32000 (by norm_num) (by norm_num)).1 0 ?_
  rw [downsampleTo16k_length _ _ (by norm_num)]
  norm_num [round_eq]

/-- C9: every output sample of downsampleTo16k lies between the minimum
and maximum of its two contributing input samples (the floor-index and
clamped-ceil-index source values); at rate 16000 the function is the
identity and both contributing samples coincide with the output. -/
theorem interpolation_bound (buffer : List ℚ) (r : ℚ) (i : ℕ)
    (hi : i < (downsampleTo16k buffer r).length) :
    min (buffer.getD (dsIndexFloor i r).toNat 0)
        (buffer.getD (dsIndexCeil buffer.length i r).toNat 0) ≤
      (downsampleTo16k buffer r).getD i 0 ∧
    (downsampleTo16k buffer r).getD i 0 ≤
      max (buffer.getD (dsIndexFloor i r).toNat 0)
        (buffer.getD (dsIndexCeil buffer.length i r).toNat 0) := by
  by_cases h16 : r = 16000
  · subst h16
    unfold downsampleTo16k at hi ⊢
    rw [if_pos rfl] at hi ⊢
    have hq : (16000 : ℚ) / 16000 = 1 := by norm_num
    have hf : dsIndexFloor i 16000 = (i : ℤ) := by
      unfold dsIndexFloor
      rw [hq, mul_one, Int.floor_natCast]
    have hc : dsIndexCeil buffer.length i 16000 = (i : ℤ) := by
      unfold dsIndexCeil
      rw [hq, mul_one, Int.ceil_natCast]
      exact min_eq_left (by omega)
    rw [hf, hc]
    have ht : ((i : ℤ)).toNat = i := Int.toNat_natCast i
    rw [ht, min_self, max_self]
    exact ⟨le_refl _, le_refl _⟩
  · unfold downsampleTo16k at hi ⊢
    rw [if_neg h16] at hi ⊢
    rw [List.getD_eq_getElem _ _ hi, List.getElem_map, List.getElem_range]
    unfold dsSample
    have hd0 : 0 ≤ (i : ℚ) * (r / 16000) - ⌊(i : ℚ) * (r / 16000)⌋ :=
      sub_nonneg.mpr (Int.floor_le _)
    have hd1 : (i : ℚ) * (r / 16000) - ⌊(i : ℚ) * (r / 16000)⌋ ≤ 1 := by
      have := Int.lt_floor_add_one ((i : ℚ) * (r / 16000))
      linarith
    set v1 := buffer.getD (dsIndexFloor i r).toNat 0 with hv1
    set v2 := buffer.getD (dsIndexCeil buffer.length i r).toNat 0 with hv2
    set d := (i : ℚ) * (r / 16000) - ⌊(i : ℚ) * (r / 16000)⌋ with hdd
    constructor
    · rcases le_total v1 v2 with hv | hv
      · rw [min_eq_left hv]
        nlinarith [mul_nonneg (sub_nonneg.mpr hv) hd0]
      · rw [min_eq_right hv]
        nlinarith [mul_nonneg (sub_nonneg.mpr hv) (sub_nonneg.mpr hd1)]
    · rcases le_total v1 v2 with hv | hv
      · rw [max_eq_right hv]
        nlinarith [mul_nonneg (sub_nonneg.mpr hv) (sub_nonneg.mpr hd1)]
      · rw [max_eq_left hv]
        nlinarith [mul_nonneg (sub_nonneg.mpr hv) hd0]

/-- Witness for interpolation_bound at the buffer [1/2, 1/4], rate
32000, output index 0. -/
theorem interpolation_bound_witness :
    min ([(1 : ℚ) / 2, 1 / 4].getD (dsIndexFloor 0 32000).toNat 0)
        ([(1 : ℚ) / 2, 1 / 4].getD (dsIndexCeil [(1 : ℚ) / 2, 1 / 4].length 0 32000).toNat 0) ≤
      (downsampleTo16k [(1 : ℚ) / 2, 1 / 4] 32000).getD 0 0 ∧
    (downsampleTo16k [(1 : ℚ) / 2, 1 / 4] 32000).getD 0 0 ≤
      max ([(1 : ℚ) / 2, 1 / 4].getD (dsIndexFloor 0 32000).toNat 0)
        ([(1 : ℚ) / 2, 1 / 4].getD (dsIndexCeil [(1 : ℚ) / 2, 1 / 4].length 0 32000).toNat 0) := by
  refine interpolation_bound [(1 : ℚ) / 2, 1 / 4] 32000 0 ?_
  rw [downsampleTo16k_length _ _ (by norm_num)]
  norm_num [round_eq]

/-- Speaker role tag of a transcript fragment or turn. -/
inductive Role where
  | user : Role
  | model : Role
  deriving DecidableEq, Repr

/-- TranscriptionItem (src/types.ts): one chat turn held by the UI. -/
structure TranscriptionItem where
  id : String
  role : Role
  text : String
  isComplete : Bool
  deriving DecidableEq, Repr

/-- handleTranscript (src/App.tsx): the transcript accumulator. The
fresh id (Date.now().toString() in the source) is passed in as newId;
if the last turn has the same role and is still pending the turn is
replaced in place keeping its id, otherwise a new turn is appended. -/
def handleTranscript (newId : String) (text : String) (role : Role) (isComplete : Bool)
    (prev : List TranscriptionItem) : List TranscriptionItem :=
  match prev.getLast? with
  | some lastItem =>
      if lastItem.role = role ∧ lastItem.isComplete = false then
        prev.dropLast ++ [{ lastItem with text := text, isComplete := isComplete }]
      else
        prev ++ [⟨newId, role, text, isComplete⟩]
  | none => prev ++ [⟨newId, role, text, isComplete⟩]

/-- C5: the concrete four-fragment scenario yields exactly the two
turns {user, "Hi there", complete} then {model, "Hello", incomplete};
in general a fragment whose role matches a pending last turn replaces
that turn in place, and otherwise a new turn is appended. -/
theorem transcript_coalescing :
    handleTranscript "t4" "Hello" Role.model false
      (handleTranscript "t3" "Hi there" Role.user true
        (handleTranscript "t2" "Hi there" Role.user false
          (handleTranscript "t1" "Hi" Role.user false []))) =
      [⟨"t1", Role.user, "Hi there", true⟩, ⟨"t4", Role.model, "Hello", false⟩] ∧
    (∀ newId text role isComplete prev lastItem,
      prev.getLast? = some lastItem → lastItem.role = role → lastItem.isComplete = false →
      handleTranscript newId text role isComplete prev =
        prev.dropLast ++ [⟨lastItem.id, lastItem.role, text, isComplete⟩]) ∧
    (∀ newId text role isComplete prev,
      (∀ lastItem, prev.getLast? = some lastItem →
        lastItem.role ≠ role ∨ lastItem.isComplete = true) →
      handleTranscript newId text role isComplete prev =
        prev ++ [⟨newId, role, text, isComplete⟩]) := by
  refine ⟨by decide, ?_, ?_⟩
  · intro newId text role isComplete prev lastItem hLast hrole hcompl
    simp only [handleTranscript, hLast]
    rw [if_pos ⟨hrole, hcompl⟩]
  · intro newId text role isComplete prev hdisj
    cases hL : prev.getLast? with
    | none => simp [handleTranscript, hL]
    | some lastItem =>
        have hd := hdisj lastItem hL
        have hcond : ¬ (lastItem.role = role ∧ lastItem.isComplete = false) := by
          rcases hd with h | h
          · exact fun hc => h hc.1
          · intro hc
            rw [h] at hc
            exact absurd hc.2 (by decide)
        simp only [handleTranscript, hL]
        rw [if_neg hcond]

/-- Witness for transcript_coalescing: the append branch at an empty
history and the in-place branch at a singleton pending history. -/
theorem transcript_coalescing_witness :
    handleTranscript "t9" "x" Role.user false [] = [⟨"t9", Role.user, "x", false⟩] ∧
    handleTranscript "t9" "y" Role.user true [⟨"t1", Role.user, "x", false⟩] =
      [⟨"t1", Role.user, "y", true⟩] := by
  constructor
  · exact (transcript_coalescing.2.2) "t9" "x" Role.user false []
      (fun lastItem h => by simp at h)
  · exact (transcript_coalescing.2.1) "t9" "y" Role.user true
      [⟨"t1", Role.user, "x", false⟩] ⟨"t1", Role.user, "x", false⟩ rfl rfl rfl

/-- Mutable session fields of GeminiLiveService
(src/services/geminiLiveService.ts) touched by handleMessage. -/
structure ServiceState where
  nextStartTime : ℚ
  currentInputTranscription : String
  currentOutputTranscription : String
  deriving DecidableEq, Repr

/-- The subset of a LiveServerMessage consumed by handleMessage
(src/services/geminiLiveService.ts). The inlined audio payload is
modelled by the outcome of the browser-side decodeAudioData call on
it: none means no payload, some none a payload whose decode throws,
some (some samples) a payload decoding to the given sample buffer
(whose duration is length / 24000 at the declared 24000 Hz rate). -/
structure GLMessage where
  outputTranscription : Option String
  inputTranscription : Option String
  turnComplete : Bool
  interrupted : Bool
  modelTurnAudio : Option (Option (List ℚ))
  deriving Repr

/-- One invocation of the transcript callback onTranscript. -/
structure TranscriptEvent where
  text : String
  role : Role
  isComplete : Bool
  deriving DecidableEq, Repr

/-- One buffer-source scheduling performed by handleMessage: the start
passed to source.start and the buffer duration. -/
structure ScheduledSource where
  startTime : ℚ
  duration : ℚ
  deriving DecidableEq, Repr

/-- Result of one handleMessage invocation: the new session state, the
transcript callbacks emitted in order, and the scheduled sources. -/
structure StepResult where
  state : ServiceState
  transcripts : List TranscriptEvent
  scheduled : List ScheduledSource
  deriving Repr

/-- Section 1 of handleMessage: outputTranscription is handled first
and inputTranscription only otherwise (else-if in the source), each
appending to its running string and emitting a non-final callback. -/
def handleTranscriptions (st : ServiceState) (outT inT : Option String) :
    ServiceState × List TranscriptEvent :=
  match outT with
  | some t =>
      ({ st with currentOutputTranscription := st.currentOutputTranscription ++ t },
       [⟨st.currentOutputTranscription ++ t, Role.model, false⟩])
  | none =>
      match inT with
      | some t =>
          ({ st with currentInputTranscription := st.currentInputTranscription ++ t },
           [⟨st.currentInputTranscription ++ t, Role.user, false⟩])
      | none => (st, [])

/-- Turn-completion flush of handleMessage: each non-empty running
string is emitted as a final callback and reset. -/
def handleTurnComplete (st : ServiceState) (turnComplete : Bool) :
    ServiceState × List TranscriptEvent :=
  if turnComplete then
    let pU :=
      if st.currentInputTranscription = "" then (st, ([] : List TranscriptEvent))
      else ({ st with currentInputTranscription := "" },
        [⟨st.currentInputTranscription, Role.user, true⟩])
    let pM :=
      if pU.1.currentOutputTranscription = "" then (pU.1, ([] : List TranscriptEvent))
      else ({ pU.1 with currentOutputTranscription := "" },
        [⟨pU.1.currentOutputTranscription, Role.model, true⟩])
    (pM.1, pU.2 ++ pM.2)
  else (st, [])

/-- Section 2 of handleMessage: on a successfully decoded chunk the
cursor is first caught up to the clock if behind, the source is started
at the cursor, and the cursor advances by the buffer duration; a failed
decode is caught and dropped. -/
def handleAudio (st : ServiceState) (audio : Option (Option (List ℚ))) (currentTime : ℚ) :
    ServiceState × List ScheduledSource :=
  match audio with
  | some (some samples) =>
      let audioDuration := (samples.length : ℚ) / 24000
      let start := if st.nextStartTime < currentTime then currentTime else st.nextStartTime
      ({ st with nextStartTime := start + audioDuration }, [⟨start, audioDuration⟩])
  | some none => (st, [])
  | none => (st, [])

/-- Interruption handling of handleMessage: reset the cursor to the
output clock and clear the model running string. (The source reads
outputAudioContext?.currentTime with a fallback of 0 for a missing
context; within an active session the context exists and the clock is
non-negative, so the value is currentTime itself.) -/
def handleInterruption (st : ServiceState) (interrupted : Bool) (currentTime : ℚ) :
    ServiceState :=
  if interrupted then
    { st with nextStartTime := currentTime, currentOutputTranscription := "" }
  else st

/-- handleMessage (src/services/geminiLiveService.ts): transcription
routing, turn-completion flush, audio scheduling, interruption, in
source order. -/
def handleMessage (st : ServiceState) (msg : GLMessage) (currentTime : ℚ) : StepResult :=
  let p1 := handleTranscriptions st msg.outputTranscription msg.inputTranscription
  let p2 := handleTurnComplete p1.1 msg.turnComplete
  let p3 := handleAudio p2.1 msg.modelTurnAudio currentTime
  let st4 := handleInterruption p3.1 msg.interrupted currentTime
  ⟨st4, p1.2 ++ p2.2, p3.2⟩

/-- Fold of handleMessage over a list of timestamped inbound messages,
collecting all scheduled sources. -/
def runMessages (st : ServiceState) : List (GLMessage × ℚ) → ServiceState × List ScheduledSource
  | [] => (st, [])
  | (msg, t) :: rest =>
      let r := handleMessage st msg t
      let k := runMessages r.state rest
      (k.1, r.scheduled ++ k.2)

theorem handleTranscriptions_nextStartTime (st : ServiceState) (outT inT : Option String) :
    (handleTranscriptions st outT inT).1.nextStartTime = st.nextStartTime := by
  cases outT <;> cases inT <;> rfl

theorem handleTurnComplete_nextStartTime (st : ServiceState) (b : Bool) :
    (handleTurnComplete st b).1.nextStartTime = st.nextStartTime := by
  cases b
  · rfl
  · simp only [handleTurnComplete]
    split_ifs <;> rfl

theorem handleAudio_input (st : ServiceState) (audio : Option (Option (List ℚ))) (t : ℚ) :
    (handleAudio st audio t).1.currentInputTranscription = st.currentInputTranscription := by
  rcases audio with _ | ⟨_ | samples⟩ <;> rfl

theorem handleAudio_output (st : ServiceState) (audio : Option (Option (List ℚ))) (t : ℚ) :
    (handleAudio st audio t).1.currentOutputTranscription = st.currentOutputTranscription := by
  rcases audio with _ | ⟨_ | samples⟩ <;> rfl

theorem handleInterruption_input (st : ServiceState) (b : Bool) (t : ℚ) :
    (handleInterruption st b t).currentInputTranscription = st.currentInputTranscription := by
  cases b <;> rfl

theorem ite_lt_eq_max (c t : ℚ) : (if c < t then t else c) = max c t := by
  rcases lt_or_le c t with h | h
  · rw [if_pos h, max_eq_right h.le]
  · rw [if_neg (not_lt.mpr h), max_eq_left h]

theorem handleMessage_scheduled_audio (st : ServiceState) (msg : GLMessage) (t : ℚ)
    (samples : List ℚ) (hA : msg.modelTurnAudio = some (some samples)) :
    (handleMessage st msg t).scheduled =
      [⟨max st.nextStartTime t, (samples.length : ℚ) / 24000⟩] := by
  have h1 := handleTranscriptions_nextStartTime st msg.outputTranscription msg.inputTranscription
  have h2 := handleTurnComplete_nextStartTime
    (handleTranscriptions st msg.outputTranscription msg.inputTranscription).1 msg.turnComplete
  simp [handleMessage, handleAudio, hA, ite_lt_eq_max, h1, h2]

theorem handleMessage_cursor_audio (st : ServiceState) (msg : GLMessage) (t : ℚ)
    (samples : List ℚ) (hA : msg.modelTurnAudio = some (some samples))
    (hI : msg.interrupted = false) :
    (handleMessage st msg t).state.nextStartTime =
      max st.nextStartTime t + (samples.length : ℚ) / 24000 := by
  have h1 := handleTranscriptions_nextStartTime st msg.outputTranscription msg.inputTranscription
  have h2 := handleTurnComplete_nextStartTime
    (handleTranscriptions st msg.outputTranscription msg.inputTranscription).1 msg.turnComplete
  simp [handleMessage, handleAudio, handleInterruption, hA, hI, ite_lt_eq_max, h1, h2]

/-- C1: on a message whose inlined chunk decodes successfully and which
carries no interruption flag, handleMessage starts the buffer at
max(cursor-before, clock) and sets the cursor to that start plus the
buffer duration; when the cursor lags the clock the start is exactly
the clock, and a following decodable chunk scheduled with no lag and no
interruption starts exactly at the previous start plus the previous
duration. -/
theorem gapless_scheduling (st : ServiceState) (msg : GLMessage) (t : ℚ) (samples : List ℚ)
    (hA : msg.modelTurnAudio = some (some samples)) (hI : msg.interrupted = false) :
    (handleMessage st msg t).scheduled =
      [⟨max st.nextStartTime t, (samples.length : ℚ) / 24000⟩] ∧
    (handleMessage st msg t).state.nextStartTime =
      max st.nextStartTime t + (samples.length : ℚ) / 24000 ∧
    (st.nextStartTime < t →
      (handleMessage st msg t).scheduled = [⟨t, (samples.length : ℚ) / 24000⟩]) ∧
    (∀ msg2 t2 samples2, msg2.modelTurnAudio = some (some samples2) →
      t2 ≤ (handleMessage st msg t).state.nextStartTime →
      (handleMessage (handleMessage st msg t).state msg2 t2).scheduled =
        [⟨max st.nextStartTime t + (samples.length : ℚ) / 24000,
          (samples2.length : ℚ) / 24000⟩]) := by
  have hs := handleMessage_scheduled_audio st msg t samples hA
  have hc := handleMessage_cursor_audio st msg t samples hA hI
  refine ⟨hs, hc, ?_, ?_⟩
  · intro hlag
    rw [hs, max_eq_right hlag.le]
  · intro msg2 t2 samples2 hA2 hle
    rw [handleMessage_scheduled_audio (handleMessage st msg t).state msg2 t2 samples2 hA2,
      hc, max_eq_left (hc ▸ hle)]

/-- Witness for gapless_scheduling at a lagging cursor (1 behind clock
2) and a one-sample chunk, followed by a second chunk with no lag. -/
theorem gapless_scheduling_witness :
    (handleMessage ⟨1, "", ""⟩ ⟨none, none, false, false, some (some [(0 : ℚ)])⟩ 2).scheduled =
      [⟨max 1 2, (([(0 : ℚ)].length : ℚ)) / 24000⟩] ∧
    (handleMessage ⟨1, "", ""⟩ ⟨none, none, false, false, some (some [(0 : ℚ)])⟩ 2).scheduled =
      [⟨2, (([(0 : ℚ)].length : ℚ)) / 24000⟩] ∧
    (handleMessage
        (handleMessage ⟨1, "", ""⟩ ⟨none, none, false, false, some (some [(0 : ℚ)])⟩ 2).state
        ⟨none, none, false, false, some (some [(0 : ℚ)])⟩ 0).scheduled =
      [⟨max 1 2 + (([(0 : ℚ)].length : ℚ)) / 24000, (([(0 : ℚ)].length : ℚ)) / 24000⟩] := by
  have h := gapless_scheduling ⟨1, "", ""⟩ ⟨none, none, false, false, some (some [(0 : ℚ)])⟩ 2
    [(0 : ℚ)] rfl rfl
  refine ⟨h.1, h.2.2.1 (by norm_num), h.2.2.2 ⟨none, none, false, false, some (some [(0 : ℚ)])⟩
    0 [(0 : ℚ)] rfl ?_⟩
  rw [h.2.1]
  have hm : max (1 : ℚ) 2 = 2 := max_eq_right (by norm_num)
  rw [hm]
  norm_num

/-- C4: the playback cursor nextStartTime never decreases across a
handleMessage call that carries no interruption flag, and whenever a
call changes it, the new value is at least the output clock time of
that call. -/
theorem cursor_invariant (st : ServiceState) (msg : GLMessage) (t : ℚ) :
    (msg.interrupted = false →
      st.nextStartTime ≤ (handleMessage st msg t).state.nextStartTime) ∧
    ((handleMessage st msg t).state.nextStartTime ≠ st.nextStartTime →
      t ≤ (handleMessage st msg t).state.nextStartTime) := by
  have h1 := handleTranscriptions_nextStartTime st msg.outputTranscription msg.inputTranscription
  have h2 := handleTurnComplete_nextStartTime
    (handleTranscriptions st msg.outputTranscription msg.inputTranscription).1 msg.turnComplete
  constructor
  · intro hI
    rcases hAud : msg.modelTurnAudio with _ | ⟨_ | samples⟩
    · simp [handleMessage, handleAudio, handleInterruption, hI, hAud, h1, h2]
    · simp [handleMessage, handleAudio, handleInterruption, hI, hAud, h1, h2]
    · rw [handleMessage_cursor_audio st msg t samples hAud hI]
      have hd : (0 : ℚ) ≤ (samples.length : ℚ) / 24000 := by positivity
      have hmx : st.nextStartTime ≤ max st.nextStartTime t := le_max_left _ _
      linarith
  · intro hne
    by_cases hI : msg.interrupted = true
    · simp [handleMessage, handleInterruption, hI]
    · rw [Bool.not_eq_true] at hI
      rcases hAud : msg.modelTurnAudio with _ | ⟨_ | samples⟩
      · exact absurd (by simp [handleMessage, handleAudio, handleInterruption, hI, hAud, h1, h2])
          hne
      · exact absurd (by simp [handleMessage, handleAudio, handleInterruption, hI, hAud, h1, h2])
          hne
      · rw [handleMessage_cursor_audio st msg t samples hAud hI]
        have hd : (0 : ℚ) ≤ (samples.length : ℚ) / 24000 := by positivity
        have hmx : t ≤ max st.nextStartTime t := le_max_right _ _
        linarith

/-- Witness for cursor_invariant: a scheduling call does not decrease a
cursor of 5, and an interrupting call at clock 9 leaves the cursor at
no less than 9. -/
theorem cursor_invariant_witness :
    ((⟨5, "", ""⟩ : ServiceState).nextStartTime ≤
      (handleMessage ⟨5, "", ""⟩ ⟨none, none, false, false, some (some [(0 : ℚ)])⟩ 9).state.nextStartTime) ∧
    ((9 : ℚ) ≤ (handleMessage ⟨5, "", ""⟩ ⟨none, none, false, true, none⟩ 9).state.nextStartTime) := by
  constructor
  · exact (cursor_invariant ⟨5, "", ""⟩ ⟨none, none, false, false, some (some [(0 : ℚ)])⟩ 9).1 rfl
  · exact (cursor_invariant ⟨5, "", ""⟩ ⟨none, none, false, true, none⟩ 9).2
      (fun hc => absurd hc (by norm_num : ¬((9 : ℚ) = 5)))

/-- C6, counterexample: a message carrying both an outputTranscription
fragment "a" and an inputTranscription fragment "b" leaves the user
accumulation string empty and emits only the model callback — the
else-if in the source drops the input fragment, contradicting the
claim that both routings apply. -/
theorem transcription_routing_cex :
    (handleMessage ⟨0, "", ""⟩ ⟨some "a", some "b", false, false, none⟩ 0).state.currentInputTranscription = "" ∧
    (handleMessage ⟨0, "", ""⟩ ⟨some "a", some "b", false, false, none⟩ 0).transcripts =
      [⟨"a", Role.model, false⟩] := by
  exact ⟨by decide, by decide⟩

/-- C6 (amended): an outputTranscription fragment is always appended to
the model accumulation string and emitted via the callback with role
model; an inputTranscription fragment is appended to the user string
and emitted with role user only when the message carries no
outputTranscription fragment; when both kinds are present the output
branch takes precedence and the input fragment is dropped. -/
theorem transcription_routing (st : ServiceState) (msg : GLMessage) (t : ℚ) :
    (∀ txt, msg.outputTranscription = some txt →
      ((⟨st.currentOutputTranscription ++ txt, Role.model, false⟩ : TranscriptEvent) ∈
        (handleMessage st msg t).transcripts) ∧
      (msg.turnComplete = false → msg.interrupted = false →
        (handleMessage st msg t).state.currentOutputTranscription =
          st.currentOutputTranscription ++ txt)) ∧
    (∀ txt, msg.outputTranscription = none → msg.inputTranscription = some txt →
      ((⟨st.currentInputTranscription ++ txt, Role.user, false⟩ : TranscriptEvent) ∈
        (handleMessage st msg t).transcripts) ∧
      (msg.turnComplete = false →
        (handleMessage st msg t).state.currentInputTranscription =
          st.currentInputTranscription ++ txt)) ∧
    (∀ txtO txtI, msg.outputTranscription = some txtO → msg.inputTranscription = some txtI →
      msg.turnComplete = false →
      (handleMessage st msg t).state.currentInputTranscription =
        st.currentInputTranscription ∧
      ∀ e ∈ (handleMessage st msg t).transcripts, e.role = Role.model) := by
  refine ⟨?_, ?_, ?_⟩
  · intro txt hO
    constructor
    · simp [handleMessage, handleTranscriptions, hO]
    · intro hTC hI
      simp [handleMessage, handleTranscriptions, handleTurnComplete, handleInterruption,
        hO, hTC, hI, handleAudio_output]
  · intro txt hO hIn
    constructor
    · simp [handleMessage, handleTranscriptions, hO, hIn]
    · intro hTC
      simp [handleMessage, handleTranscriptions, handleTurnComplete,
        hO, hIn, hTC, handleAudio_input, handleInterruption_input]
  · intro txtO txtI hO hIn hTC
    constructor
    · simp [handleMessage, handleTranscriptions, handleTurnComplete,
        hO, hTC, handleAudio_input, handleInterruption_input]
    · intro e he
      simp [handleMessage, handleTranscriptions, handleTurnComplete, hO, hTC] at he
      rw [he]

/-- Witness for transcription_routing: an output fragment "a" on model
string "x", and an input fragment "b" with no output fragment on user
string "u". -/
theorem transcription_routing_witness :
    ((⟨"x" ++ "a", Role.model, false⟩ : TranscriptEvent) ∈
      (handleMessage ⟨0, "u", "x"⟩ ⟨some "a", none, false, false, none⟩ 0).transcripts) ∧
    (handleMessage ⟨0, "u", "x"⟩ ⟨some "a", none, false, false, none⟩ 0).state.currentOutputTranscription = "x" ++ "a" ∧
    ((⟨"u" ++ "b", Role.user, false⟩ : TranscriptEvent) ∈
      (handleMessage ⟨0, "u", "x"⟩ ⟨none, some "b", false, false, none⟩ 0).transcripts) ∧
    (handleMessage ⟨0, "u", "x"⟩ ⟨none, some "b", false, false, none⟩ 0).state.currentInputTranscription = "u" ++ "b" := by
  have ha := (transcription_routing ⟨0, "u", "x"⟩ ⟨some "a", none, false, false, none⟩ 0).1 "a" rfl
  have hb := (transcription_routing ⟨0, "u", "x"⟩ ⟨none, some "b", false, false, none⟩ 0).2.1 "b" rfl rfl
  exact ⟨ha.1, ha.2 rfl rfl, hb.1, hb.2 rfl⟩

/-- C7: a pure interruption message resets the cursor to the current
output clock time, clears the model accumulation string, leaves the
user accumulation string unchanged, emits no transcript callback (so a
partial model turn already shown stays incomplete), and schedules
nothing. -/
theorem interruption_effect (st : ServiceState) (t : ℚ) :
    (handleMessage st ⟨none, none, false, true, none⟩ t).state.nextStartTime = t ∧
    (handleMessage st ⟨none, none, false, true, none⟩ t).state.currentOutputTranscription = "" ∧
    (handleMessage st ⟨none, none, false, true, none⟩ t).state.currentInputTranscription =
      st.currentInputTranscription ∧
    (handleMessage st ⟨none, none, false, true, none⟩ t).transcripts = [] ∧
    (handleMessage st ⟨none, none, false, true, none⟩ t).scheduled = [] := by
  exact ⟨rfl, rfl, rfl, rfl, rfl⟩

/-- C8: a message whose audio chunk fails to decode schedules nothing
and is handled exactly like the same message with no audio at all, so
the session state — cursor and both accumulation strings — is
unaffected by the failure and any sequence of subsequent messages
behaves as if the failed chunk had never arrived. -/
theorem decode_failure_drop (st : ServiceState) (msg : GLMessage) (t : ℚ)
    (hA : msg.modelTurnAudio = some none) :
    (handleMessage st msg t).scheduled = [] ∧
    handleMessage st msg t =
      handleMessage st
        ⟨msg.outputTranscription, msg.inputTranscription, msg.turnComplete,
          msg.interrupted, none⟩ t ∧
    ∀ rest, runMessages (handleMessage st msg t).state rest =
      runMessages (handleMessage st
        ⟨msg.outputTranscription, msg.inputTranscription, msg.turnComplete,
          msg.interrupted, none⟩ t).state rest := by
  have heq : handleMessage st msg t =
      handleMessage st
        ⟨msg.outputTranscription, msg.inputTranscription, msg.turnComplete,
          msg.interrupted, none⟩ t := by
    simp only [handleMessage, handleAudio, hA]
  refine ⟨?_, heq, fun rest => by rw [heq]⟩
  simp [handleMessage, handleAudio, hA]

/-- Witness for decode_failure_drop: a failed decode at state
(3, "u", "m") with clock 7, followed by one decodable chunk. -/
theorem decode_failure_drop_witness :
    (handleMessage ⟨3, "u", "m"⟩ ⟨none, none, false, false, some none⟩ 7).scheduled = [] ∧
    handleMessage ⟨3, "u", "m"⟩ ⟨none, none, false, false, some none⟩ 7 =
      handleMessage ⟨3, "u", "m"⟩ ⟨none, none, false, false, none⟩ 7 ∧
    runMessages (handleMessage ⟨3, "u", "m"⟩ ⟨none, none, false, false, some none⟩ 7).state
        [(⟨none, none, false, false, some (some [(0 : ℚ)])⟩, 8)] =
      runMessages (handleMessage ⟨3, "u", "m"⟩ ⟨none, none, false, false, none⟩ 7).state
        [(⟨none, none, false, false, some (some [(0 : ℚ)])⟩, 8)] := by
  have h := decode_failure_drop ⟨3, "u", "m"⟩ ⟨none, none, false, false, some none⟩ 7 rfl
  exact ⟨h.1, h.2.1, h.2.2 [(⟨none, none, false, false, some (some [(0 : ℚ)])⟩, 8)]⟩

end EnglishTutor
